import Mathlib

/-!
# Verification of the astreum state/consensus core

This file shallowly embeds the data model and operations of the astreum
library (content-addressed atoms, block encoding/decoding/validation,
patricia-trie lookup, genesis and block production) and proves or refutes
the behavioural claims made by the specification.

Conventions of the embedding:
* Python `bytes` values are `List Nat` (one entry per byte); the code never
  relies on entries being < 256 except where noted, and hypotheses state the
  bound where it matters.
* The 32-byte BLAKE3 digest is an abstract parameter `h : List Nat → List Nat`;
  theorems that need collision-freeness assume `Function.Injective h` together
  with a fixed output length, and witnesses instantiate `h` with a concrete
  injective function.
* Fallible Python code (raising `ValueError`) is embedded with `Except String`.
-/

/-- Byte strings: one `Nat` per byte. -/
abbrev Bytes := List Nat

/-- The reserved all-zero 32-byte sentinel (`ZERO32` in `_node.py` and
`_storage.atom`). -/
def ZERO32 : Bytes := List.replicate 32 0

/-- `u64_le` from `_node.py`: `int(n).to_bytes(8, "little")`.  The Python
raises `OverflowError` for `n ≥ 2^64`; theorems about it restrict to the
in-range case, where this definition agrees with the source. -/
def u64le (n : Nat) : Bytes :=
  [n % 256, n / 256 % 256, n / 65536 % 256, n / 16777216 % 256,
   n / 4294967296 % 256, n / 1099511627776 % 256,
   n / 281474976710656 % 256, n / 72057594037927936 % 256]

/-- `Atom.object_id_from_parts` composed with `Atom.object_id` from
`_node.py`: `blake3(blake3(data) || next || u64_le(size)).digest()`,
parameterised by the digest function `h`. -/
def objectIdParts (h : Bytes → Bytes) (data next : Bytes) (size : Nat) : Bytes :=
  h (h data ++ next ++ u64le size)

/-- `_int_to_be_bytes` helper: minimal big-endian digits of `n`
(empty for `n = 0`), i.e. `n.to_bytes((n.bit_length()+7)//8, "big")`. -/
def beDigits (n : Nat) : Bytes :=
  if n = 0 then [] else beDigits (n / 256) ++ [n % 256]
decreasing_by exact Nat.div_lt_self (Nat.pos_of_ne_zero (by assumption)) (by omega)

/-- `_int_to_be_bytes` from `_consensus/block.py`: `None ↦ b""`, `0 ↦ b"\x00"`,
nonzero `n` ↦ shortest big-endian representation. -/
def intToBeBytes : Option Nat → Bytes
  | none => []
  | some n => if n = 0 then [0] else beDigits n

/-- `_be_bytes_to_int` from `_consensus/block.py`: `int.from_bytes(b, "big")`
with the empty (or absent) string decoding to `0`. -/
def beBytesToInt (b : Bytes) : Nat :=
  b.foldl (fun acc d => acc * 256 + d) 0

-- ## Basic facts about the big-endian codec

theorem beBytesToInt_append (xs ys : Bytes) :
    beBytesToInt (xs ++ ys) = ys.foldl (fun acc d => acc * 256 + d) (beBytesToInt xs) := by
  simp [beBytesToInt, List.foldl_append]

theorem beBytesToInt_beDigits (n : Nat) : beBytesToInt (beDigits n) = n := by
  induction n using Nat.strong_induction_on with
  | _ n ih =>
    by_cases h0 : n = 0
    · simp [h0, beDigits, beBytesToInt]
    · rw [beDigits, if_neg h0, beBytesToInt_append,
        ih (n / 256) (Nat.div_lt_self (Nat.pos_of_ne_zero h0) (by omega))]
      simp [beBytesToInt]
      omega

theorem beDigits_head_ne_zero (n : Nat) (hn : n ≠ 0) :
    (beDigits n).head? ≠ some 0 := by
  induction n using Nat.strong_induction_on with
  | _ n ih =>
    rw [beDigits, if_neg hn]
    by_cases hq : n / 256 = 0
    · have : n % 256 = n := by omega
      simp [hq, beDigits, this]
      omega
    · have hne : beDigits (n / 256) ≠ [] := by
        rw [beDigits, if_neg hq]
        simp
      rw [List.head?_append_of_ne_nil _ hne]
      exact ih (n / 256) (Nat.div_lt_self (Nat.pos_of_ne_zero hn) (by omega)) hq

/-- C10: the big-endian minimal-width integer codec round-trips on every
non-negative integer (`0` encodes to the single zero byte, nonzero `n` to its
shortest big-endian form with no leading zero), while the absent value encodes
to the empty byte string, which decodes to `0` — indistinguishable, after a
decode, from a field that held `0`. -/
theorem intCodec_roundtrip_and_absent_aliases_zero (n : Nat) :
    beBytesToInt (intToBeBytes (some n)) = n
      ∧ intToBeBytes (some 0) = [0]
      ∧ (intToBeBytes (some (n + 1))).head? ≠ some 0
      ∧ intToBeBytes none = []
      ∧ beBytesToInt (intToBeBytes none) = beBytesToInt (intToBeBytes (some 0)) := by
  refine ⟨?_, by simp [intToBeBytes], ?_, rfl, by simp [intToBeBytes, beBytesToInt]⟩
  · by_cases h0 : n = 0
    · simp [h0, intToBeBytes, beBytesToInt]
    · simp [intToBeBytes, h0, beBytesToInt_beDigits]
  · simp only [intToBeBytes, Nat.succ_ne_zero, if_neg]
    exact beDigits_head_ne_zero (n + 1) (Nat.succ_ne_zero n)

-- ## Atom identity (C2)

theorem u64le_length (n : Nat) : (u64le n).length = 8 := by
  simp [u64le]

theorem u64le_inj {s s' : Nat} (hs : s < 2 ^ 64) (hs' : s' < 2 ^ 64)
    (h : u64le s = u64le s') : s = s' := by
  simp only [u64le, List.cons.injEq, and_true] at h
  obtain ⟨h0, h1, h2, h3, h4, h5, h6, h7⟩ := h
  omega

/-- C2: atom identity `object_id = h(h(data) || next || u64_le(size))` is a
pure function of the `(data, next, size)` triple, and — in the ideal-hash
model where the 32-byte digest `h` is injective — any change of a single
input changes the id: the id determines the triple. -/
theorem objectId_pure_and_input_sensitive
    (h : Bytes → Bytes) (hlen : ∀ x, (h x).length = 32)
    (hinj : Function.Injective h)
    (d d' nx nx' : Bytes) (s s' : Nat)
    (hnx : nx.length = 32) (hnx' : nx'.length = 32)
    (hs : s < 2 ^ 64) (hs' : s' < 2 ^ 64) :
    (d = d' ∧ nx = nx' ∧ s = s') ↔
      objectIdParts h d nx s = objectIdParts h d' nx' s' := by
  constructor
  · rintro ⟨rfl, rfl, rfl⟩
    rfl
  · intro hid
    have hcat : h d ++ (nx ++ u64le s) = h d' ++ (nx' ++ u64le s') := by
      have := hinj hid
      simpa [List.append_assoc] using this
    have hd : h d = h d' ∧ nx ++ u64le s = nx' ++ u64le s' :=
      List.append_inj hcat (by rw [hlen, hlen])
    have hn : nx = nx' ∧ u64le s = u64le s' :=
      List.append_inj hd.2 (by rw [hnx, hnx'])
    exact ⟨hinj hd.1, hn.1, u64le_inj hs hs' hn.2⟩

/-- Concrete injective 32-entry digest used by witnesses: the head entry is an
injective encoding of the whole input (via `Encodable (List ℕ)`), padded with
31 zeros. -/
def hW (l : Bytes) : Bytes :=
  Encodable.encode l :: List.replicate 31 0

theorem hW_length (x : Bytes) : (hW x).length = 32 := by
  simp [hW]

theorem hW_injective : Function.Injective hW := by
  intro a b hab
  simp only [hW, List.cons.injEq] at hab
  exact Encodable.encode_injective hab.1

/-- Witness for `objectId_pure_and_input_sensitive` at a concrete injective
digest and concrete inputs. -/
theorem objectId_pure_and_input_sensitive_witness :
    ZERO32.length = 32 ∧ (3 : Nat) < 2 ^ 64 ∧
      (([1] = [2] ∧ ZERO32 = ZERO32 ∧ (3 : Nat) = 3) ↔
        objectIdParts hW [1] ZERO32 3 = objectIdParts hW [2] ZERO32 3) :=
  ⟨by simp [ZERO32], by norm_num,
    objectId_pure_and_input_sensitive hW hW_length hW_injective
      [1] [2] ZERO32 ZERO32 3 3 (by simp [ZERO32]) (by simp [ZERO32])
      (by norm_num) (by norm_num)⟩

-- ## Atoms with kinds (`_storage.atom`) and the block codec (`_consensus/block.py`)

/-- Modelled from the spec: `_storage/atom.py` is not in the source tree (only
its importers are).  Per §3 an atom is `{data, next, size}` with `size`
defaulting to `len(data)`; `_consensus/block.py` additionally tags each atom
with a kind (`SYMBOL`/`BYTES`/`LIST`), a caller-side convention that does not
enter the content id. -/
inductive AtomKind where
  | SYMBOL
  | BYTES
  | LIST
deriving DecidableEq, Repr

/-- An atom as used by `_consensus/block.py`: payload, successor pointer and
kind; `size` is `len(data)` (the `_node.py` default). -/
structure Atom where
  data : Bytes
  next : Bytes
  kind : AtomKind
deriving DecidableEq, Repr

/-- `Atom.object_id` (from `_node.py`, §3): the content id of an atom with
`size = len(data)`. -/
def Atom.objectId (h : Bytes → Bytes) (a : Atom) : Bytes :=
  objectIdParts h a.data a.next a.data.length

/-- Storage view used by the block decoder: a content-addressed lookup. -/
def storeOf (h : Bytes → Bytes) (atoms : List Atom) : Bytes → Option Atom :=
  fun id => atoms.find? (fun a => a.objectId h == id)

/-- Modelled from the spec: `get_atom_list_from_storage`
(`astreum/storage/models/atom.py`) is not in the source tree.  Per §3/§4.4 a
sequence is a chain of atoms linked by `next` and terminated by the `ZERO32`
sentinel, and decoding "walks exactly three chained atoms" — so the walk
collects the chained atoms themselves, failing when an atom cannot be fetched.
`fuel` bounds the walk so that the embedding is total; every theorem supplies
enough fuel for the chains involved. -/
def getAtomList (get : Bytes → Option Atom) : Nat → Bytes → Option (List Atom)
  | 0, _ => none
  | fuel + 1, id =>
    if id = ZERO32 then some []
    else
      match get id with
      | none => none
      | some a => (getAtomList get fuel a.next).map (a :: ·)

/-- `b"block"`. -/
def blockTag : Bytes := [98, 108, 111, 99, 107]

/-- The attached previous block reference of `_consensus/block.py`'s `Block`
(`previous_block: Optional[Block]`); `validate` reads only its `hash` and
`timestamp` fields, which is all the embedding keeps. -/
structure PrevRef where
  hash : Bytes
  timestamp : Option Nat
deriving DecidableEq, Repr

/-- `Block` from `_consensus/block.py` (the ten body fields plus hash,
previous-block link, body hash and signature; the attached `accounts` /
`transactions` / `receipts` structures play no role in the encoding or
validation paths embedded here). -/
structure CBlock where
  hash : Bytes
  previous_block_hash : Bytes
  previous_block : Option PrevRef
  number : Option Nat
  timestamp : Option Nat
  accounts_hash : Option Bytes
  transactions_total_fees : Option Nat
  transactions_hash : Option Bytes
  receipts_hash : Option Bytes
  delay_difficulty : Option Nat
  delay_output : Option Bytes
  validator_public_key : Option Bytes
  body_hash : Option Bytes
  signature : Option Bytes
deriving DecidableEq, Repr

/-- The ten detail byte strings emitted by `Block.to_atom`, in the canonical
order of `_consensus/block.py` lines 117–136. -/
def CBlock.detailBytes (b : CBlock) : List Bytes :=
  [b.previous_block_hash,
   intToBeBytes b.number,
   intToBeBytes b.timestamp,
   b.accounts_hash.getD [],
   intToBeBytes b.transactions_total_fees,
   b.transactions_hash.getD [],
   b.receipts_hash.getD [],
   intToBeBytes b.delay_difficulty,
   b.delay_output.getD [],
   b.validator_public_key.getD []]

/-- Folds child ids right-to-left into a chain of atoms
(`data = child_id, next = previous head`), returning the head id and the chain
atoms in left-to-right order — the loop of `Block.to_atom` lines 139–145. -/
def foldListChain (h : Bytes → Bytes) : List Bytes → Bytes × List Atom
  | [] => (ZERO32, [])
  | childId :: rest =>
    let (tailHead, tailAtoms) := foldListChain h rest
    let node : Atom := ⟨childId, tailHead, AtomKind.BYTES⟩
    (node.objectId h, node :: tailAtoms)

/-- `Block.to_atom` from `_consensus/block.py`.  Returns `none` when the
signature is absent (the Python would crash hashing `None`); otherwise returns
the pair the Python returns: `self.hash` — note: not the type atom's id — and
the full atom list (detail atoms, body chain, body list atom, signature atom,
type atom). -/
def CBlock.toAtom (h : Bytes → Bytes) (b : CBlock) : Option (Bytes × List Atom) :=
  match b.signature with
  | none => none
  | some sig =>
    let detailAtoms : List Atom := b.detailBytes.map (fun d => ⟨d, ZERO32, AtomKind.BYTES⟩)
    let detailIds : List Bytes := detailAtoms.map (Atom.objectId h)
    let (bodyHead, bodyAtoms) := foldListChain h detailIds
    let bodyListAtom : Atom := ⟨bodyHead, ZERO32, AtomKind.LIST⟩
    let sigAtom : Atom := ⟨sig, bodyListAtom.objectId h, AtomKind.BYTES⟩
    let typeAtom : Atom := ⟨blockTag, sigAtom.objectId h, AtomKind.SYMBOL⟩
    some (b.hash, detailAtoms ++ bodyAtoms ++ [bodyListAtom, sigAtom, typeAtom])

/-- `Block.from_atom` from `_consensus/block.py`: walk the three-atom top
chain, check the tag/signature/body-list kinds and the body-list tail, walk
the ten body elements, then populate the block fields (empty byte strings
collapse back to `ZERO32`/`None`, integers through `_be_bytes_to_int`). -/
def blockFromAtom (h : Bytes → Bytes) (get : Bytes → Option Atom) (fuel : Nat)
    (blockId : Bytes) : Except String CBlock :=
  match getAtomList get fuel blockId with
  | none => .error "malformed block atom chain"
  | some header =>
    match header with
    | [typeAtom, sigAtom, bodyListAtom] =>
      if typeAtom.kind ≠ AtomKind.SYMBOL ∨ typeAtom.data ≠ blockTag then
        .error "not a block (type atom payload)"
      else if sigAtom.kind ≠ AtomKind.BYTES then
        .error "malformed block (signature atom kind)"
      else if bodyListAtom.kind ≠ AtomKind.LIST then
        .error "malformed block (body list atom kind)"
      else if bodyListAtom.next ≠ ZERO32 then
        .error "malformed block (body list tail)"
      else
        match getAtomList get fuel bodyListAtom.data with
        | none => .error "missing block body list nodes"
        | some bodyAtoms =>
          if hlen : bodyAtoms.length = 10 then
            if bodyAtoms.any (fun a => a.kind ≠ AtomKind.BYTES) then
              .error "list element must be bytes while decoding block body"
            else
              match bodyAtoms, hlen with
              | [a0, a1, a2, a3, a4, a5, a6, a7, a8, a9], _ =>
                .ok
                  { hash := blockId
                    previous_block_hash := if a0.data = [] then ZERO32 else a0.data
                    previous_block := none
                    number := some (beBytesToInt a1.data)
                    timestamp := some (beBytesToInt a2.data)
                    accounts_hash := if a3.data = [] then none else some a3.data
                    transactions_total_fees := some (beBytesToInt a4.data)
                    transactions_hash := if a5.data = [] then none else some a5.data
                    receipts_hash := if a6.data = [] then none else some a6.data
                    delay_difficulty := some (beBytesToInt a7.data)
                    delay_output := if a8.data = [] then none else some a8.data
                    validator_public_key := if a9.data = [] then none else some a9.data
                    body_hash := some (bodyListAtom.objectId h)
                    signature := some sigAtom.data }
          else .error "block body must contain exactly 10 detail entries"
    | _ => .error "malformed block atom chain"

-- ## C1: the encode/decode round trip

/-- Concrete digest for closed counterexamples: an injective-on-small-entries
polynomial accumulator in the head entry, padded to 32 entries.  Distinctness
of the finitely many ids appearing in a counterexample is checked by
evaluation, so no global injectivity is needed. -/
def hP (l : Bytes) : Bytes :=
  l.foldl (fun acc a => acc * 18446744073709551616 + a + 1) 1 :: List.replicate 31 0

/-- The failing input for C1: a fresh `Block()` populated exactly like the
repository's own round-trip test (`tests/block/atom.py`), with `hash` left at
its constructor default `b""`. -/
def c1Block : CBlock :=
  { hash := []
    previous_block_hash := ZERO32
    previous_block := none
    number := some 1
    timestamp := some 1234567890
    accounts_hash := some [97]
    transactions_total_fees := some 0
    transactions_hash := some [116]
    receipts_hash := some [114]
    delay_difficulty := some 1
    delay_output := some [111, 117, 116]
    validator_public_key := some [118]
    body_hash := none
    signature := some [115, 105, 103] }

/-- The id/atom-list pair `to_atom` returns for `c1Block`. -/
def c1Pair : Bytes × List Atom := (CBlock.toAtom hP c1Block).getD ([], [])

/-- C1 (code bug): encoding succeeds but returns the stale `self.hash` field
(`b""` for a fresh block) as the block id instead of the type atom's object id
promised by `to_atom`'s own docstring, so decoding the result of encoding a
freshly constructed block — the repository's own round-trip test input —
fails outright with the "malformed block atom chain" error, and no field is
recovered. -/
theorem block_roundtrip_fails_on_test_input :
    (CBlock.toAtom hP c1Block).isSome = true
      ∧ c1Pair.1 = []
      ∧ blockFromAtom hP (storeOf hP c1Pair.2) 20 c1Pair.1 =
          .error "malformed block atom chain" :=
  ⟨rfl, rfl, rfl⟩

-- ## C3: which structural violations make decoding fail

/-- Cheap digest for the C3 counterexample: enough of the input survives into
the id for the handful of stored atoms to get distinct ids (checked by
evaluation). -/
def hT (l : Bytes) : Bytes := [beBytesToInt (l.take 4)]

/-- Body chain of ten byte-kind atoms for the C3 counterexample. -/
def c3Body : Bytes × List Atom :=
  foldListChain hT [[0], [1], [2], [3], [4], [5], [6], [7], [8], [9]]

/-- A body-list atom whose kind is `BYTES` instead of `LIST` — none of the
claim's four structural conditions is violated by it. -/
def c3BodyList : Atom := ⟨c3Body.1, ZERO32, AtomKind.BYTES⟩

/-- Signature atom of the C3 counterexample. -/
def c3Sig : Atom := ⟨[7, 7], c3BodyList.objectId hT, AtomKind.BYTES⟩

/-- Type atom of the C3 counterexample. -/
def c3Type : Atom := ⟨blockTag, c3Sig.objectId hT, AtomKind.SYMBOL⟩

/-- Content-addressed store holding the whole C3 counterexample object. -/
def c3Get : Bytes → Option Atom :=
  storeOf hT (c3Body.2 ++ [c3BodyList, c3Sig, c3Type])

/-- C3 counterexample: a stored object satisfying all four of the claim's
structural conditions — exactly three chained atoms, tag data `b"block"`,
body-list terminal `ZERO32`, exactly ten byte-kind body elements — on which
decoding nevertheless fails, because `from_atom` additionally requires the
body-list atom to be of `LIST` kind. -/
theorem blockFromAtom_rejects_wellformed_nonlist_kind :
    getAtomList c3Get 20 (c3Type.objectId hT) = some [c3Type, c3Sig, c3BodyList]
      ∧ c3Type.data = blockTag
      ∧ c3BodyList.next = ZERO32
      ∧ (getAtomList c3Get 20 c3BodyList.data).map List.length = some 10
      ∧ ((getAtomList c3Get 20 c3BodyList.data).getD []).all
          (fun a => a.kind == AtomKind.BYTES) = true
      ∧ blockFromAtom hT c3Get 20 (c3Type.objectId hT) =
          .error "malformed block (body list atom kind)" := by
  exact ⟨by decide, by decide, by decide, by decide, by decide, by rfl⟩

/-- C3 (amended): block decoding fails with a hard decode error — never a
silently defaulted block — exactly on these structural violations: the top
chain does not consist of exactly three chained atoms; the tag atom is not a
symbol atom with data `b"block"`; the signature atom is not byte-kind; the
body-list atom is not list-kind or its terminal pointer is not `ZERO32`; the
body list is missing or does not consist of exactly ten byte-kind elements.
Every stored object satisfying all of these decodes successfully. -/
theorem blockFromAtom_error_and_success_cases
    (h : Bytes → Bytes) (get : Bytes → Option Atom) (fuel : Nat) (id : Bytes) :
    (getAtomList get fuel id = none →
        blockFromAtom h get fuel id = .error "malformed block atom chain")
    ∧ (∀ l, getAtomList get fuel id = some l → l.length ≠ 3 →
        blockFromAtom h get fuel id = .error "malformed block atom chain")
    ∧ (∀ t s bl, getAtomList get fuel id = some [t, s, bl] →
        (t.kind ≠ AtomKind.SYMBOL ∨ t.data ≠ blockTag) →
        blockFromAtom h get fuel id = .error "not a block (type atom payload)")
    ∧ (∀ t s bl, getAtomList get fuel id = some [t, s, bl] →
        t.kind = AtomKind.SYMBOL → t.data = blockTag → s.kind ≠ AtomKind.BYTES →
        blockFromAtom h get fuel id = .error "malformed block (signature atom kind)")
    ∧ (∀ t s bl, getAtomList get fuel id = some [t, s, bl] →
        t.kind = AtomKind.SYMBOL → t.data = blockTag → s.kind = AtomKind.BYTES →
        bl.kind ≠ AtomKind.LIST →
        blockFromAtom h get fuel id = .error "malformed block (body list atom kind)")
    ∧ (∀ t s bl, getAtomList get fuel id = some [t, s, bl] →
        t.kind = AtomKind.SYMBOL → t.data = blockTag → s.kind = AtomKind.BYTES →
        bl.kind = AtomKind.LIST → bl.next ≠ ZERO32 →
        blockFromAtom h get fuel id = .error "malformed block (body list tail)")
    ∧ (∀ t s bl, getAtomList get fuel id = some [t, s, bl] →
        t.kind = AtomKind.SYMBOL → t.data = blockTag → s.kind = AtomKind.BYTES →
        bl.kind = AtomKind.LIST → bl.next = ZERO32 →
        getAtomList get fuel bl.data = none →
        blockFromAtom h get fuel id = .error "missing block body list nodes")
    ∧ (∀ t s bl body, getAtomList get fuel id = some [t, s, bl] →
        t.kind = AtomKind.SYMBOL → t.data = blockTag → s.kind = AtomKind.BYTES →
        bl.kind = AtomKind.LIST → bl.next = ZERO32 →
        getAtomList get fuel bl.data = some body → body.length ≠ 10 →
        blockFromAtom h get fuel id =
          .error "block body must contain exactly 10 detail entries")
    ∧ (∀ t s bl body, getAtomList get fuel id = some [t, s, bl] →
        t.kind = AtomKind.SYMBOL → t.data = blockTag → s.kind = AtomKind.BYTES →
        bl.kind = AtomKind.LIST → bl.next = ZERO32 →
        getAtomList get fuel bl.data = some body → body.length = 10 →
        body.any (fun a => a.kind ≠ AtomKind.BYTES) = true →
        blockFromAtom h get fuel id =
          .error "list element must be bytes while decoding block body")
    ∧ (∀ t s bl body, getAtomList get fuel id = some [t, s, bl] →
        t.kind = AtomKind.SYMBOL → t.data = blockTag → s.kind = AtomKind.BYTES →
        bl.kind = AtomKind.LIST → bl.next = ZERO32 →
        getAtomList get fuel bl.data = some body → body.length = 10 →
        body.any (fun a => a.kind ≠ AtomKind.BYTES) = false →
        ∃ b, blockFromAtom h get fuel id = .ok b ∧ b.hash = id
          ∧ b.signature = some s.data ∧ b.body_hash = some (bl.objectId h)) := by
  refine ⟨?_, ?_, ?_, ?_, ?_, ?_, ?_, ?_, ?_, ?_⟩
  · intro hnone
    simp [blockFromAtom, hnone]
  · intro l hl hlen
    rw [blockFromAtom, hl]
    match l, hlen with
    | [], _ => rfl
    | [a], _ => rfl
    | [a, b], _ => rfl
    | a :: b :: c :: d :: rest, _ => rfl
    | [a, b, c], hlen => exact absurd rfl hlen
  · intro t s bl hl hbad
    rw [blockFromAtom, hl]
    simp only [if_pos hbad]
  · intro t s bl hl hk hd hs
    simp [blockFromAtom, hl, hk, hd, hs]
  · intro t s bl hl hk hd hs hblk
    simp [blockFromAtom, hl, hk, hd, hs, hblk]
  · intro t s bl hl hk hd hs hblk hnx
    simp [blockFromAtom, hl, hk, hd, hs, hblk, hnx]
  · intro t s bl hl hk hd hs hblk hnx hbody
    simp [blockFromAtom, hl, hk, hd, hs, hblk, hnx, hbody]
  · intro t s bl body hl hk hd hs hblk hnx hbody hblen
    simp [blockFromAtom, hl, hk, hd, hs, hblk, hnx, hbody, hblen]
  · intro t s bl body hl hk hd hs hblk hnx hbody hblen hany
    have hany2 : (body.any fun a => !decide (a.kind = AtomKind.BYTES)) = true := by
      simpa [decide_not] using hany
    simp only [blockFromAtom, hl, hk, hd, hs, hblk, hnx, hbody, ne_eq,
      not_true_eq_false, false_or, decide_not, if_false]
    rw [dif_pos hblen, if_pos hany2]
  · intro t s bl body hl hk hd hs hblk hnx hbody hblen hany
    match body, hblen with
    | [a0, a1, a2, a3, a4, a5, a6, a7, a8, a9], _ =>
      simp only [List.any_eq_false, decide_eq_true_eq] at hany
      simp [blockFromAtom, hl, hk, hd, hs, hblk, hnx, hbody,
        List.any_eq_true, hany]

/-- Correctly list-kinded body-list atom for the C3 witness. -/
def c3wBodyList : Atom := ⟨c3Body.1, ZERO32, AtomKind.LIST⟩

/-- Signature atom for the C3 witness. -/
def c3wSig : Atom := ⟨[7, 7], c3wBodyList.objectId hT, AtomKind.BYTES⟩

/-- Type atom for the C3 witness. -/
def c3wType : Atom := ⟨blockTag, c3wSig.objectId hT, AtomKind.SYMBOL⟩

/-- Store holding a fully well-formed block object for the C3 witness. -/
def c3wGet : Bytes → Option Atom :=
  storeOf hT (c3Body.2 ++ [c3wBodyList, c3wSig, c3wType])

/-- Witness for `blockFromAtom_error_and_success_cases`: a concrete stored
object satisfying every structural condition decodes successfully. -/
theorem blockFromAtom_error_and_success_cases_witness :
    ∃ b, blockFromAtom hT c3wGet 20 (c3wType.objectId hT) = .ok b
      ∧ b.hash = c3wType.objectId hT
      ∧ b.signature = some c3wSig.data
      ∧ b.body_hash = some (c3wBodyList.objectId hT) :=
  (blockFromAtom_error_and_success_cases hT c3wGet 20
      (c3wType.objectId hT)).2.2.2.2.2.2.2.2.2
    c3wType c3wSig c3wBodyList c3Body.2
    (by decide) rfl rfl rfl rfl rfl (by decide) (by decide) (by decide)

-- ## Block validation (`Block.validate`, C4 and C5)

/-- The three validation outcomes: Python's `return False` (unverifiable),
`raise ValueError(msg)` (invalid) and `return True` (valid). -/
inductive VResult where
  | valid
  | invalid (msg : String)
  | unverifiable
deriving DecidableEq, Repr

/-- Python truthiness of an optional byte string: `None` and `b""` are falsy. -/
def optFalsy (b : Option Bytes) : Bool := b.getD [] = []

/-- `Block.validate` from `_consensus/block.py`.  `verify pk sig msg` abstracts
`Ed25519PublicKey.from_public_bytes(pk).verify(sig, msg)` succeeding; the
signature-check failure raises (invalid), missing fields return `False`
(unverifiable).  The previous-block resolution mirrors the source: an attached
`previous_block` supplies its timestamp and (when truthy) its hash; otherwise
a non-`ZERO32` previous hash is decoded from storage, any decode failure being
unverifiable; a non-monotonic timestamp raises. -/
def validate (h : Bytes → Bytes) (verify : Bytes → Bytes → Bytes → Bool)
    (get : Bytes → Option Atom) (fuel : Nat) (b : CBlock) : VResult :=
  if optFalsy b.body_hash then .unverifiable
  else if optFalsy b.signature then .unverifiable
  else if optFalsy b.validator_public_key then .unverifiable
  else if b.timestamp = none then .unverifiable
  else if ¬ verify (b.validator_public_key.getD []) (b.signature.getD [])
      (b.body_hash.getD []) then .invalid "invalid signature"
  else
    let ph0 : Bytes := if b.previous_block_hash = [] then ZERO32 else b.previous_block_hash
    let prevTs0 : Option Nat :=
      match b.previous_block with
      | some pb => some (pb.timestamp.getD 0)
      | none => none
    let prevHash : Bytes :=
      match b.previous_block with
      | some pb => if pb.hash ≠ [] then pb.hash else ph0
      | none => ph0
    if prevHash ≠ [] ∧ prevHash ≠ ZERO32 then
      match prevTs0 with
      | some pts =>
        if b.timestamp.getD 0 < pts + 1 then .invalid "timestamp must be at least prev+1"
        else .valid
      | none =>
        match blockFromAtom h get fuel prevHash with
        | .error _ => .unverifiable
        | .ok prev =>
          if b.timestamp.getD 0 < prev.timestamp.getD 0 + 1 then
            .invalid "timestamp must be at least prev+1"
          else .valid
    else .valid

/-- C4: validation distinguishes unverifiable from invalid.  If any of
`body_hash`, `signature`, `validator_public_key` or `timestamp` is missing
(Python-falsy: `None`, or empty for the byte fields), the result is
unverifiable for *every* signature verifier — i.e. without the signature
check being consulted; if all four are present and the Ed25519 verification
of `signature` over `body_hash` under `validator_public_key` fails, the
result is the distinct hard `invalid "invalid signature"` outcome. -/
theorem validate_missing_unverifiable_and_badsig_invalid
    (h : Bytes → Bytes) (get : Bytes → Option Atom) (fuel : Nat) (b : CBlock) :
    ((optFalsy b.body_hash ∨ optFalsy b.signature
        ∨ optFalsy b.validator_public_key ∨ b.timestamp = none) →
      ∀ verify, validate h verify get fuel b = .unverifiable)
    ∧ (∀ verify bh sig vpk ts,
        b.body_hash = some bh → bh ≠ [] →
        b.signature = some sig → sig ≠ [] →
        b.validator_public_key = some vpk → vpk ≠ [] →
        b.timestamp = some ts →
        verify vpk sig bh = false →
        validate h verify get fuel b = .invalid "invalid signature") := by
  constructor
  · rintro (hm | hm | hm | hm) verify <;> simp [validate, hm]
  · intro verify bh sig vpk ts hbh hbhne hsig hsigne hvpk hvpkne hts hv
    simp [validate, optFalsy, hbh, hsig, hvpk, hts, hbhne, hsigne, hvpkne, hv]

/-- A block with every precondition field present, used by C4/C5 witnesses. -/
def vBlock : CBlock :=
  { hash := [1]
    previous_block_hash := ZERO32
    previous_block := none
    number := some 1
    timestamp := some 5
    accounts_hash := some [97]
    transactions_total_fees := some 0
    transactions_hash := some [116]
    receipts_hash := some [114]
    delay_difficulty := some 1
    delay_output := some [111]
    validator_public_key := some [118]
    body_hash := some [55]
    signature := some [115] }

/-- Witness for `validate_missing_unverifiable_and_badsig_invalid`: with the
signature missing the result is unverifiable whatever the verifier says, and
with everything present but a failing verifier the result is the hard invalid
outcome. -/
theorem validate_missing_unverifiable_and_badsig_invalid_witness :
    validate hT (fun _ _ _ => true) (fun _ => none) 20 { vBlock with signature := none } =
        .unverifiable
      ∧ validate hT (fun _ _ _ => false) (fun _ => none) 20 vBlock =
        .invalid "invalid signature" :=
  ⟨(validate_missing_unverifiable_and_badsig_invalid hT (fun _ => none) 20
        { vBlock with signature := none }).1 (by decide) (fun _ _ _ => true),
    (validate_missing_unverifiable_and_badsig_invalid hT (fun _ => none) 20 vBlock).2
      (fun _ _ _ => false) [55] [115] [118] 5 rfl (by decide) rfl (by decide) rfl
      (by decide) rfl rfl⟩

/-- C5 counterexample: a block whose `previous_block_hash` *is* `ZERO32` can
still fail validation on the timestamp rule, because `validate` prefers the
hash of an attached `previous_block` object over the `previous_block_hash`
field when deciding whether to run the check. -/
theorem validate_zero32_prev_hash_still_timestamp_checked :
    ({ vBlock with previous_block := some ⟨[9], some 100⟩ } : CBlock).previous_block_hash
        = ZERO32
      ∧ ({ vBlock with previous_block := some ⟨[9], some 100⟩ } : CBlock).timestamp = some 5
      ∧ validate hT (fun _ _ _ => true) (fun _ => none) 20
          { vBlock with previous_block := some ⟨[9], some 100⟩ } =
          .invalid "timestamp must be at least prev+1" :=
  ⟨rfl, rfl, by decide⟩

/-- C5 (amended): once the preconditions hold and the signature verifies, the
timestamp rule keys on the *effective* previous hash — the attached previous
block's hash when one is attached with a truthy hash, otherwise the
`previous_block_hash` field.  When the effective hash is not `ZERO32` and the
previous block resolves (attached reference first, else a storage decode),
`timestamp(current) ≥ timestamp(previous) + 1` is required, a violation being
the hard invalid outcome; an unresolvable previous block is unverifiable; and
when the effective hash is `ZERO32` (in particular `previous_block_hash =
ZERO32` with no attached previous block) the timestamp check is skipped. -/
theorem validate_timestamp_rule_effective_prev
    (h : Bytes → Bytes) (verify : Bytes → Bytes → Bytes → Bool)
    (get : Bytes → Option Atom) (fuel : Nat) (b : CBlock)
    (bh sig vpk : Bytes) (ts : Nat)
    (hbh : b.body_hash = some bh) (hbhne : bh ≠ [])
    (hsig : b.signature = some sig) (hsigne : sig ≠ [])
    (hvpk : b.validator_public_key = some vpk) (hvpkne : vpk ≠ [])
    (hts : b.timestamp = some ts)
    (hv : verify vpk sig bh = true) :
    (∀ pb, b.previous_block = some pb → pb.hash ≠ [] → pb.hash ≠ ZERO32 →
        ((ts < pb.timestamp.getD 0 + 1 →
            validate h verify get fuel b = .invalid "timestamp must be at least prev+1")
          ∧ (pb.timestamp.getD 0 + 1 ≤ ts →
            validate h verify get fuel b = .valid)))
    ∧ (b.previous_block = none → b.previous_block_hash ≠ [] →
        b.previous_block_hash ≠ ZERO32 →
        ((∀ e, blockFromAtom h get fuel b.previous_block_hash = .error e →
            validate h verify get fuel b = .unverifiable)
          ∧ (∀ prev, blockFromAtom h get fuel b.previous_block_hash = .ok prev →
              ((ts < prev.timestamp.getD 0 + 1 →
                  validate h verify get fuel b =
                    .invalid "timestamp must be at least prev+1")
                ∧ (prev.timestamp.getD 0 + 1 ≤ ts →
                  validate h verify get fuel b = .valid)))))
    ∧ (b.previous_block = none →
        (b.previous_block_hash = [] ∨ b.previous_block_hash = ZERO32) →
        validate h verify get fuel b = .valid)
    ∧ (∀ pb, b.previous_block = some pb → pb.hash = ZERO32 →
        validate h verify get fuel b = .valid) := by
  have hz : ZERO32 ≠ ([] : Bytes) := by decide
  refine ⟨?_, ?_, ?_, ?_⟩
  · intro pb hpb hne hnz
    constructor
    · intro hlt
      simp [validate, optFalsy, hbh, hsig, hvpk, hts, hbhne, hsigne, hvpkne, hv,
        hpb, hne, hnz, hlt]
    · intro hge
      simp [validate, optFalsy, hbh, hsig, hvpk, hts, hbhne, hsigne, hvpkne, hv,
        hpb, hne, hnz, Nat.not_lt.mpr hge]
  · intro hpb hne hnz
    constructor
    · intro e he
      simp [validate, optFalsy, hbh, hsig, hvpk, hts, hbhne, hsigne, hvpkne, hv,
        hpb, hne, hnz, he]
    · intro prev hprev
      constructor
      · intro hlt
        simp [validate, optFalsy, hbh, hsig, hvpk, hts, hbhne, hsigne, hvpkne, hv,
          hpb, hne, hnz, hprev, hlt]
      · intro hge
        simp [validate, optFalsy, hbh, hsig, hvpk, hts, hbhne, hsigne, hvpkne, hv,
          hpb, hne, hnz, hprev, Nat.not_lt.mpr hge]
  · intro hpb hz0
    rcases hz0 with hz0 | hz0 <;>
      simp [validate, optFalsy, hbh, hsig, hvpk, hts, hbhne, hsigne, hvpkne, hv,
        hpb, hz0]
  · intro pb hpb hpz
    simp [validate, optFalsy, hbh, hsig, hvpk, hts, hbhne, hsigne, hvpkne, hv,
      hpb, hpz, hz]

/-- Witness for `validate_timestamp_rule_effective_prev`: a concrete block
with `previous_block_hash = ZERO32` and no attached previous block validates
(the timestamp check is skipped). -/
theorem validate_timestamp_rule_effective_prev_witness :
    validate hT (fun _ _ _ => true) (fun _ => none) 20 vBlock = .valid :=
  (validate_timestamp_rule_effective_prev hT (fun _ _ _ => true) (fun _ => none) 20
      vBlock [55] [115] [118] 5 rfl (by decide) rfl (by decide) rfl (by decide)
      rfl rfl).2.2.1 rfl (Or.inr rfl)

-- ## Patricia trie lookup (`utils/patricia.py`, C9)

/-- `PatriciaNode` from `utils/patricia.py`: a (possibly sub-byte) bit prefix
of length `key_len`, an optional stored value and two optional child
pointers. -/
structure PNode where
  key_len : Nat
  key : Bytes
  value : Option Bytes
  child_0 : Option Bytes
  child_1 : Option Bytes
deriving DecidableEq, Repr

/-- `PatriciaTrie._bit`: most-significant-bit-first indexing into a byte
string (`(buf[i // 8] >> (7 - i % 8)) & 1 == 1`). -/
def byteBit (buf : Bytes) (i : Nat) : Bool :=
  (buf.getD (i / 8) 0 >>> (7 - i % 8)) % 2 = 1

/-- `PatriciaTrie._match_prefix`: the node's first `plen` bits must equal the
key's bits starting at `off`, and must not run past the end of the key. -/
def matchPrefixBits (p : Bytes) (plen : Nat) (key : Bytes) (off : Nat) : Bool :=
  if key.length * 8 < off + plen then false
  else (List.range plen).all (fun i => byteBit p i == byteBit key (off + i))

theorem matchPrefixBits_le {p : Bytes} {plen : Nat} {key : Bytes} {off : Nat}
    (hm : matchPrefixBits p plen key off = true) : off + plen ≤ key.length * 8 := by
  by_contra hc
  simp [matchPrefixBits, if_pos (by omega : key.length * 8 < off + plen)] at hm

/-- The loop of `PatriciaTrie.get`: verify the node's prefix against the key
at the current bit offset, return the node when the key is exhausted and a
value is stored, otherwise route on the next key bit through the (lazily
fetched) children.  The offset strictly increases, which bounds the walk. -/
def getWalk (fetch : Bytes → Option PNode) (key : Bytes) (node : PNode)
    (pos : Nat) : Option PNode :=
  if hm : matchPrefixBits node.key node.key_len key pos = true then
    if hend : pos + node.key_len = key.length * 8 then
      if node.value.isSome then some node else none
    else
      match (if byteBit key (pos + node.key_len) then node.child_1 else node.child_0) with
      | none => none
      | some ch =>
        match fetch ch with
        | none => none
        | some n2 => getWalk fetch key n2 (pos + node.key_len + 1)
  else none
termination_by key.length * 8 + 1 - pos
decreasing_by
  have := matchPrefixBits_le hm
  omega

/-- `PatriciaTrie.get` from `utils/patricia.py`: returns the node storing the
key (the trie's nodes are reached through `fetch`, the semantic content of the
`_node_get`-backed, cached `_fetch`), or `none` when the trie is empty, the
root is missing, or the walk ends without a stored value. -/
def trieGet (fetch : Bytes → Option PNode) (rootHash : Option Bytes)
    (key : Bytes) : Option PNode :=
  match rootHash with
  | none => none
  | some rh =>
    match fetch rh with
    | none => none
    | some n => getWalk fetch key n 0

/-- C9: the Patricia-trie lookup walks from the root matching each node's
`key_bits` against the key at the current offset and returns absent — the
`none` value, not an error — on a prefix mismatch or a missing/dangling child
pointer; when the accumulated offset covers the full key bit-length it
returns the node carrying the stored value if one is present and absent
otherwise; and otherwise it consumes one routing bit and repeats from the
fetched child. -/
theorem trieGet_walk_behaviour (fetch : Bytes → Option PNode) (key : Bytes)
    (node : PNode) (pos : Nat) :
    (matchPrefixBits node.key node.key_len key pos = false →
        getWalk fetch key node pos = none)
    ∧ (matchPrefixBits node.key node.key_len key pos = true →
        pos + node.key_len = key.length * 8 →
        getWalk fetch key node pos = if node.value.isSome then some node else none)
    ∧ (matchPrefixBits node.key node.key_len key pos = true →
        pos + node.key_len ≠ key.length * 8 →
        (if byteBit key (pos + node.key_len) then node.child_1 else node.child_0)
          = none →
        getWalk fetch key node pos = none)
    ∧ (∀ ch, matchPrefixBits node.key node.key_len key pos = true →
        pos + node.key_len ≠ key.length * 8 →
        (if byteBit key (pos + node.key_len) then node.child_1 else node.child_0)
          = some ch →
        fetch ch = none →
        getWalk fetch key node pos = none)
    ∧ (∀ ch n2, matchPrefixBits node.key node.key_len key pos = true →
        pos + node.key_len ≠ key.length * 8 →
        (if byteBit key (pos + node.key_len) then node.child_1 else node.child_0)
          = some ch →
        fetch ch = some n2 →
        getWalk fetch key node pos = getWalk fetch key n2 (pos + node.key_len + 1))
    ∧ (trieGet fetch none key = none)
    ∧ (∀ rh, fetch rh = none → trieGet fetch (some rh) key = none)
    ∧ (∀ rh n0, fetch rh = some n0 →
        trieGet fetch (some rh) key = getWalk fetch key n0 0) := by
  refine ⟨?_, ?_, ?_, ?_, ?_, rfl, ?_, ?_⟩
  · intro hm
    rw [getWalk]
    simp [hm]
  · intro hm hend
    rw [getWalk]
    simp [hm, hend]
  · intro hm hend hch
    rw [getWalk]
    simp [hm, hend, hch]
  · intro ch hm hend hch hf
    rw [getWalk]
    simp [hm, hend, hch, hf]
  · intro ch n2 hm hend hch hf
    rw [getWalk]
    simp [hm, hend, hch, hf]
  · intro rh hf
    simp [trieGet, hf]
  · intro rh n0 hf
    simp [trieGet, hf]

/-- A one-node trie store for the C9 witness. -/
def pFetch : Bytes → Option PNode :=
  fun rh => if rh = [1] then some ⟨8, [128], some [42], none, none⟩ else none

/-- Witness for `trieGet_walk_behaviour`: on a concrete one-node trie the
full-cover case returns the node carrying the stored value. -/
theorem trieGet_walk_behaviour_witness :
    getWalk pFetch [128] ⟨8, [128], some [42], none, none⟩ 0 =
      if (some [42] : Option Bytes).isSome then some (⟨8, [128], some [42], none, none⟩ : PNode)
      else none :=
  (trieGet_walk_behaviour pFetch [128] ⟨8, [128], some [42], none, none⟩ 0).2.1
    (by decide) (by decide)

-- ## Block production: transaction processing (`models/block.py Block.build`, C7)

/-- A transaction as consumed by `Block.build` (the accessor methods of the
missing `models/transaction.py` reduced to fields). -/
structure MTx where
  sender : Bytes
  recipient : Bytes
  amount : Nat
  fee : Nat
  nonce : Nat
deriving DecidableEq, Repr

/-- An account value as produced by `Account.create(balance, data, nonce)`
(`models/account.py` is not in the source tree; the spec's §3 Account is
`{balance, data_hash, nonce}`). -/
structure MAccount where
  balance : Nat
  data : Bytes
  nonce : Nat
deriving DecidableEq, Repr

/-- Modelled from the spec: `models/accounts.py` is not in the source tree.
Per §5 a production attempt operates on a fresh, isolated working set layered
over the committed (content-addressed, never mutated) state, so `Accounts` is
a committed base mapping plus an overlay of in-attempt writes. -/
structure WAccounts where
  base : Bytes → Option MAccount
  overlay : List (Bytes × MAccount)

/-- `Accounts.get_account`: latest overlay write, else the committed base. -/
def WAccounts.getAccount (a : WAccounts) (addr : Bytes) : Option MAccount :=
  match a.overlay.find? (fun p => p.1 == addr) with
  | some p => some p.2
  | none => a.base addr

/-- `Accounts.set_account`: record the write in the working overlay. -/
def WAccounts.setAccount (a : WAccounts) (addr : Bytes) (acct : MAccount) : WAccounts :=
  ⟨a.base, (addr, acct) :: a.overlay⟩

/-- The treasury address `b"\x11" * 32` of `models/block.py`. -/
def TREASURY17 : Bytes := List.replicate 32 17

/-- The burn address `b"\x00" * 32` of `models/block.py`. -/
def BURN0 : Bytes := List.replicate 32 0

/-- The `_credit` helper of `Block.build`: read-or-default, add, write. -/
def creditAccount (a : WAccounts) (addr : Bytes) (amount : Nat) : WAccounts :=
  match a.getAccount addr with
  | some acc => a.setAccount addr ⟨acc.balance + amount, acc.data, acc.nonce⟩
  | none => a.setAccount addr ⟨amount, [], 0⟩

/-- The per-transaction preconditions of `Block.build` step 3: the sender
account must exist, its nonce must equal the transaction's, and its balance
must cover `amount + fee`. -/
def violatesTx (a : WAccounts) (tx : MTx) : Bool :=
  match a.getAccount tx.sender with
  | none => true
  | some snd => snd.nonce != tx.nonce || snd.balance < tx.amount + tx.fee

/-- One iteration of the transaction loop of `Block.build`: check the sender
preconditions (`raise ValueError("invalid transaction")` on violation), debit
the sender, then credit the recipient — the treasury stake-deposit path
(`stakeUpd` abstracts the stake sub-trie update over the treasury account's
data root, since `models/patricia.py` is not in the source tree; a missing
treasury account crashes the Python, embedded as a distinct error), the burn
discard path, or the ordinary create-if-absent credit. -/
def processTx (stakeUpd : Bytes → Bytes → Nat → Bytes) (a : WAccounts)
    (tx : MTx) : Except String WAccounts :=
  match a.getAccount tx.sender with
  | none => .error "invalid transaction"
  | some snd =>
    if snd.nonce != tx.nonce || snd.balance < tx.amount + tx.fee then
      .error "invalid transaction"
    else
      let a1 := a.setAccount tx.sender
        ⟨snd.balance - tx.amount - tx.fee, snd.data, snd.nonce + 1⟩
      if tx.recipient = TREASURY17 then
        match a1.getAccount TREASURY17 with
        | none => .error "treasury account missing"
        | some tr =>
          .ok (a1.setAccount TREASURY17
            ⟨tr.balance + tx.amount, stakeUpd tr.data tx.sender tx.amount, tr.nonce⟩)
      else if tx.recipient = BURN0 then .ok a1
      else
        match a1.getAccount tx.recipient with
        | some r =>
          .ok (a1.setAccount tx.recipient ⟨r.balance + tx.amount, r.data, r.nonce⟩)
        | none => .ok (a1.setAccount tx.recipient ⟨tx.amount, [], 0⟩)

/-- The transaction loop of `Block.build`, accumulating total fees; the first
violation aborts the whole fold. -/
def processTxs (stakeUpd : Bytes → Bytes → Nat → Bytes) (a : WAccounts) :
    List MTx → Except String (WAccounts × Nat)
  | [] => .ok (a, 0)
  | tx :: rest =>
    match processTx stakeUpd a tx with
    | .error e => .error e
    | .ok a1 =>
      match processTxs stakeUpd a1 rest with
      | .error e => .error e
      | .ok (a2, fees) => .ok (a2, tx.fee + fees)

/-- Steps 2–4 of `Block.build`: cap the transaction list at
`max(prev_limit, 1)`, process it, then split the accumulated fees
(`burn = total // 2` to the burn address, the rest to the validator). -/
def buildLedger (stakeUpd : Bytes → Bytes → Nat → Bytes)
    (base : Bytes → Option MAccount) (prevLimit : Nat) (validatorPk : Bytes)
    (txs : List MTx) : Except String (WAccounts × Nat) :=
  let effective := txs.take (max prevLimit 1)
  match processTxs stakeUpd ⟨base, []⟩ effective with
  | .error e => .error e
  | .ok (a, totalFees) =>
    let burnAmt := totalFees / 2
    let rewardAmt := totalFees - burnAmt
    let a1 := if burnAmt ≠ 0 then creditAccount a BURN0 burnAmt else a
    let a2 := if rewardAmt ≠ 0 then creditAccount a1 validatorPk rewardAmt else a1
    .ok (a2, totalFees)

theorem processTx_error_of_violates (stakeUpd : Bytes → Bytes → Nat → Bytes)
    (a : WAccounts) (tx : MTx) (hv : violatesTx a tx = true) :
    processTx stakeUpd a tx = .error "invalid transaction" := by
  cases hacc : a.getAccount tx.sender with
  | none => simp [processTx, hacc]
  | some snd =>
    have hv2 : (snd.nonce != tx.nonce || decide (snd.balance < tx.amount + tx.fee))
        = true := by
      simpa [violatesTx, hacc] using hv
    simp [processTx, hacc, hv2]

theorem processTx_base_eq (stakeUpd : Bytes → Bytes → Nat → Bytes)
    (a a' : WAccounts) (tx : MTx) (hok : processTx stakeUpd a tx = .ok a') :
    a'.base = a.base := by
  cases hacc : a.getAccount tx.sender with
  | none => simp [processTx, hacc] at hok
  | some snd =>
    unfold processTx at hok
    rw [hacc] at hok
    dsimp only at hok
    split at hok
    · cases hok
    · split at hok
      · split at hok
        · cases hok
        · cases hok; rfl
      · split at hok
        · cases hok; rfl
        · split at hok <;> (cases hok; rfl)

theorem processTxs_base_eq (stakeUpd : Bytes → Bytes → Nat → Bytes) :
    ∀ (l : List MTx) (a a' : WAccounts) (fees : Nat),
      processTxs stakeUpd a l = .ok (a', fees) → a'.base = a.base := by
  intro l
  induction l with
  | nil => intro a a' fees hok; cases hok; rfl
  | cons tx rest ih =>
    intro a a' fees hok
    unfold processTxs at hok
    cases h1 : processTx stakeUpd a tx with
    | error e => rw [h1] at hok; cases hok
    | ok a1 =>
      rw [h1] at hok
      dsimp only at hok
      cases h2 : processTxs stakeUpd a1 rest with
      | error e => rw [h2] at hok; cases hok
      | ok p =>
        obtain ⟨a2, fs⟩ := p
        rw [h2] at hok
        dsimp only at hok
        cases hok
        rw [ih _ _ _ h2, processTx_base_eq stakeUpd _ _ _ h1]

theorem creditAccount_base_eq (a : WAccounts) (addr : Bytes) (amount : Nat) :
    (creditAccount a addr amount).base = a.base := by
  unfold creditAccount
  split <;> rfl

theorem processTxs_error_of_prefix_violation
    (stakeUpd : Bytes → Bytes → Nat → Bytes) :
    ∀ (l : List MTx) (i : Nat) (a st : WAccounts) (fees : Nat),
      processTxs stakeUpd a (l.take i) = .ok (st, fees) →
      ∀ (hi : i < l.length), violatesTx st (l.get ⟨i, hi⟩) = true →
      processTxs stakeUpd a l = .error "invalid transaction" := by
  intro l
  induction l with
  | nil =>
    intro i a st fees _ hi
    simp at hi
  | cons tx rest ih =>
    intro i a st fees hpre hi hv
    match i with
    | 0 =>
      simp only [List.take_zero, processTxs] at hpre
      cases hpre
      simp only [List.get] at hv
      unfold processTxs
      rw [processTx_error_of_violates stakeUpd _ tx hv]
    | j + 1 =>
      simp only [List.take_succ_cons, processTxs] at hpre
      cases h1 : processTx stakeUpd a tx with
      | error e => rw [h1] at hpre; cases hpre
      | ok a1 =>
        rw [h1] at hpre
        dsimp only at hpre
        cases h2 : processTxs stakeUpd a1 (rest.take j) with
        | error e => rw [h2] at hpre; cases hpre
        | ok p =>
          obtain ⟨a2, fs⟩ := p
          rw [h2] at hpre
          dsimp only at hpre
          cases hpre
          have hj : j < rest.length := by simpa using hi
          have hrec := ih j a1 _ _ h2 hj (by simpa using hv)
          unfold processTxs
          rw [h1]
          dsimp only
          rw [hrec]

/-- C7: block production is atomic over the ledger.  If, with every earlier
effective transaction applied, some effective transaction violates a
precondition (sender absent, nonce mismatch, or balance below amount + fee),
the entire production attempt aborts with the `"invalid transaction"` error
and returns no ledger state at all; and any state production does return is a
pure overlay over the committed base mapping — the committed account state
reachable from the previous block's `accounts_hash` is never modified. -/
theorem buildLedger_atomic_abort_on_violation
    (stakeUpd : Bytes → Bytes → Nat → Bytes) (base : Bytes → Option MAccount)
    (prevLimit : Nat) (validatorPk : Bytes) (txs : List MTx) :
    (∀ (i : Nat) (st : WAccounts) (fees : Nat)
        (hi : i < (txs.take (max prevLimit 1)).length),
      processTxs stakeUpd ⟨base, []⟩ ((txs.take (max prevLimit 1)).take i) =
          .ok (st, fees) →
      violatesTx st ((txs.take (max prevLimit 1)).get ⟨i, hi⟩) = true →
      buildLedger stakeUpd base prevLimit validatorPk txs =
        .error "invalid transaction")
    ∧ (∀ (st : WAccounts) (fees : Nat),
        buildLedger stakeUpd base prevLimit validatorPk txs = .ok (st, fees) →
        st.base = base) := by
  constructor
  · intro i st fees hi hpre hv
    have herr := processTxs_error_of_prefix_violation stakeUpd _ i _ st fees hpre hi hv
    simp [buildLedger, herr]
  · intro st fees hok
    simp only [buildLedger] at hok
    cases h1 : processTxs stakeUpd ⟨base, []⟩ (txs.take (max prevLimit 1)) with
    | error e => rw [h1] at hok; cases hok
    | ok p =>
      obtain ⟨a, totalFees⟩ := p
      rw [h1] at hok
      have hbase : a.base = base := processTxs_base_eq stakeUpd _ _ _ _ h1
      dsimp only at hok
      split at hok <;> split at hok <;>
        (cases hok; simp [creditAccount_base_eq, hbase])

/-- Committed base ledger for the C7 witness: one funded account. -/
def c7Base : Bytes → Option MAccount :=
  fun addr => if addr = [5] then some ⟨10, [], 0⟩ else none

/-- A transaction violating the nonce precondition for the C7 witness. -/
def c7Tx : MTx := ⟨[5], [6], 3, 1, 7⟩

/-- Witness for `buildLedger_atomic_abort_on_violation`: a concrete violating
transaction aborts the whole production attempt. -/
theorem buildLedger_atomic_abort_on_violation_witness :
    buildLedger (fun d _ _ => d) c7Base 10 [9] [c7Tx] = .error "invalid transaction" :=
  (buildLedger_atomic_abort_on_violation (fun d _ _ => d) c7Base 10 [9] [c7Tx]).1
    0 ⟨c7Base, []⟩ 0 (by decide) rfl (by decide)

-- ## Spec-modelled persistent binary radix trie (for genesis, C8)

/-- MSB-first bits of one byte, the `_bit` convention
(`(x >> (7 - i)) & 1`). -/
def byteBits (x : Nat) : List Bool :=
  [decide (x / 128 % 2 = 1), decide (x / 64 % 2 = 1), decide (x / 32 % 2 = 1),
   decide (x / 16 % 2 = 1), decide (x / 8 % 2 = 1), decide (x / 4 % 2 = 1),
   decide (x / 2 % 2 = 1), decide (x % 2 = 1)]

/-- A byte string as its bitstring key, MSB-first per byte. -/
def bytesToBits (b : Bytes) : List Bool := b.flatMap byteBits

theorem mod2_eq_of_iff {a b : Nat} (h : a % 2 = 1 ↔ b % 2 = 1) : a % 2 = b % 2 := by
  rcases Nat.mod_two_eq_zero_or_one a with ha | ha <;>
    rcases Nat.mod_two_eq_zero_or_one b with hb | hb
  · rw [ha, hb]
  · exfalso; rw [ha, hb] at h; omega
  · exfalso; rw [ha, hb] at h; omega
  · rw [ha, hb]

theorem byteBits_inj {x y : Nat} (hx : x < 256) (hy : y < 256)
    (h : byteBits x = byteBits y) : x = y := by
  simp only [byteBits, List.cons.injEq, and_true, decide_eq_decide] at h
  obtain ⟨h7, h6, h5, h4, h3, h2, h1, h0⟩ := h
  have e7 := mod2_eq_of_iff h7
  have e6 := mod2_eq_of_iff h6
  have e5 := mod2_eq_of_iff h5
  have e4 := mod2_eq_of_iff h4
  have e3 := mod2_eq_of_iff h3
  have e2 := mod2_eq_of_iff h2
  have e1 := mod2_eq_of_iff h1
  have e0 := mod2_eq_of_iff h0
  omega

theorem byteBits_length (x : Nat) : (byteBits x).length = 8 := by
  simp [byteBits]

theorem bytesToBits_inj : ∀ (a b : Bytes), (∀ x ∈ a, x < 256) → (∀ x ∈ b, x < 256) →
    bytesToBits a = bytesToBits b → a = b := by
  intro a
  induction a with
  | nil =>
    intro b _ _ hab
    cases b with
    | nil => rfl
    | cons y ys =>
      exfalso
      simp only [bytesToBits, List.flatMap_nil, List.flatMap_cons] at hab
      have := congrArg List.length hab
      simp [byteBits_length] at this
      omega
  | cons x xs ih =>
    intro b hxa hb hab
    cases b with
    | nil =>
      exfalso
      simp only [bytesToBits, List.flatMap_nil, List.flatMap_cons] at hab
      have := congrArg List.length hab
      simp [byteBits_length] at this
    | cons y ys =>
      simp only [bytesToBits, List.flatMap_cons] at hab
      have hsplit : byteBits x = byteBits y ∧ xs.flatMap byteBits = ys.flatMap byteBits :=
        List.append_inj hab (by rw [byteBits_length, byteBits_length])
      have hx : x = y :=
        byteBits_inj (hxa x (by simp)) (hb y (by simp)) hsplit.1
      have hxs : xs = ys :=
        ih ys (fun z hz => hxa z (by simp [hz])) (fun z hz => hb z (by simp [hz]))
          hsplit.2
      rw [hx, hxs]

/-- Modelled from the spec: `storage/models/trie.py` (and `models/patricia.py`)
is not in the source tree; §4.2 describes a persistent binary radix trie whose
`put` locates the point of divergence, splits or extends nodes and rebuilds
only the path to the root.  Children are stored inline (`empty` denotes an
absent child / the empty trie); content addressing is recovered through a
serialisation hashed on demand, which is sound because the structure is purely
functional. -/
inductive RTree where
  | empty
  | node (pre : List Bool) (val : Option Bytes) (c0 c1 : RTree)
deriving DecidableEq, Repr

/-- Longest common prefix of two bitstrings together with their remainders:
`splitCommonBits p k = (common, pRest, kRest)`. -/
def splitCommonBits : List Bool → List Bool → List Bool × List Bool × List Bool
  | [], ks => ([], [], ks)
  | p :: ps, [] => ([], p :: ps, [])
  | p :: ps, k :: ks =>
    if p = k then
      let r := splitCommonBits ps ks
      (p :: r.1, r.2.1, r.2.2)
    else ([], p :: ps, k :: ks)

/-- `put`: locate the divergence point, then replace the value (exact match),
descend into the routed child (key longer), or split the node, rebuilding
only the traversed path. -/
def RTree.put : RTree → List Bool → Bytes → RTree
  | .empty, k, v => .node k (some v) .empty .empty
  | .node p val c0 c1, k, v =>
    match splitCommonBits p k with
    | (_, [], []) => .node p (some v) c0 c1
    | (_, [], kb :: kr) =>
      if kb then .node p val c0 (c1.put kr v) else .node p val (c0.put kr v) c1
    | (c, pb :: pr, []) =>
      if pb then .node c (some v) .empty (.node pr val c0 c1)
      else .node c (some v) (.node pr val c0 c1) .empty
    | (c, pb :: pr, kb :: kr) =>
      if pb then .node c none (.node kr (some v) .empty .empty) (.node pr val c0 c1)
      else .node c none (.node pr val c0 c1) (.node kr (some v) .empty .empty)

/-- `get`: match the node's prefix, return the value when the key is
exhausted, otherwise consume one routing bit and continue; any mismatch or
absent child is absent, not an error. -/
def RTree.get : RTree → List Bool → Option Bytes
  | .empty, _ => none
  | .node p val c0 c1, k =>
    match splitCommonBits p k with
    | (_, [], []) => val
    | (_, [], kb :: kr) => if kb then c1.get kr else c0.get kr
    | _ => none

theorem splitCommon_self : ∀ l : List Bool, splitCommonBits l l = (l, [], []) := by
  intro l
  induction l with
  | nil => rfl
  | cons x xs ih => simp [splitCommonBits, ih]

theorem splitCommon_append : ∀ (c rest : List Bool),
    splitCommonBits c (c ++ rest) = (c, [], rest) := by
  intro c
  induction c with
  | nil => intro rest; rfl
  | cons x xs ih =>
    intro rest
    simp [splitCommonBits, ih rest]

theorem splitCommon_append_left : ∀ (c rest : List Bool),
    splitCommonBits (c ++ rest) c = (c, rest, []) := by
  intro c
  induction c with
  | nil =>
    intro rest
    cases rest with
    | nil => rfl
    | cons r rs => rfl
  | cons x xs ih =>
    intro rest
    simp [splitCommonBits, ih rest]

theorem splitCommon_prefix : ∀ (a ps ks : List Bool),
    splitCommonBits (a ++ ps) (a ++ ks) =
      (a ++ (splitCommonBits ps ks).1,
        (splitCommonBits ps ks).2.1, (splitCommonBits ps ks).2.2) := by
  intro a
  induction a with
  | nil => intro ps ks; rfl
  | cons x xs ih =>
    intro ps ks
    simp [splitCommonBits, ih ps ks]

theorem splitCommon_eq : ∀ (p k c pr kr : List Bool),
    splitCommonBits p k = (c, pr, kr) → p = c ++ pr ∧ k = c ++ kr := by
  intro p
  induction p with
  | nil =>
    intro k c pr kr hs
    cases hs
    exact ⟨rfl, rfl⟩
  | cons x xs ih =>
    intro k c pr kr hs
    cases k with
    | nil =>
      cases hs
      exact ⟨rfl, rfl⟩
    | cons y ys =>
      by_cases hxy : x = y
      · rw [splitCommonBits, if_pos hxy] at hs
        cases hc : splitCommonBits xs ys with
        | mk c2 r2 =>
          rw [hc] at hs
          cases hs
          obtain ⟨h1, h2⟩ := ih ys c2 r2.1 r2.2 (by rw [hc])
          constructor
          · simp [h1]
          · simp [hxy, h2]
      · rw [splitCommonBits, if_neg hxy] at hs
        cases hs
        exact ⟨rfl, rfl⟩

theorem splitCommon_heads : ∀ (p k c pr kr : List Bool) (pb kb : Bool),
    splitCommonBits p k = (c, pb :: pr, kb :: kr) → pb ≠ kb := by
  intro p
  induction p with
  | nil => intro k c pr kr pb kb hs; cases hs
  | cons x xs ih =>
    intro k c pr kr pb kb hs
    cases k with
    | nil => cases hs
    | cons y ys =>
      by_cases hxy : x = y
      · rw [splitCommonBits, if_pos hxy] at hs
        rcases hc : splitCommonBits xs ys with ⟨c2, pr2, kr2⟩
        rw [hc] at hs
        cases hs
        exact ih ys c2 pr kr pb kb (by rw [hc])
      · rw [splitCommonBits, if_neg hxy] at hs
        cases hs
        exact hxy

theorem splitCommon_extend : ∀ (c k' c2 cr kr2 : List Bool) (cb : Bool),
    splitCommonBits c k' = (c2, cb :: cr, kr2) →
    ∀ x, splitCommonBits (c ++ x) k' = (c2, cb :: cr ++ x, kr2) := by
  intro c
  induction c with
  | nil => intro k' c2 cr kr2 cb hs; cases hs
  | cons a as ih =>
    intro k' c2 cr kr2 cb hs x
    cases k' with
    | nil =>
      cases hs
      rfl
    | cons b bs =>
      by_cases hab : a = b
      · rw [splitCommonBits, if_pos hab] at hs
        rcases hc : splitCommonBits as bs with ⟨c3, pr3, kr3⟩
        rw [hc] at hs
        cases pr3 with
        | nil => cases hs
        | cons pb3 prr3 =>
          cases hs
          have hrec := ih bs c3 cr kr3 cb hc x
          simp only [List.cons_append, splitCommonBits, if_pos hab, List.append_eq, hrec]
      · rw [splitCommonBits, if_neg hab] at hs
        cases hs
        simp only [List.cons_append, splitCommonBits, if_neg hab]
        rfl

theorem RTree.get_prefix (a p2 : List Bool) (val : Option Bytes) (c0 c1 : RTree)
    (rest : List Bool) :
    (RTree.node (a ++ p2) val c0 c1).get (a ++ rest) =
      (RTree.node p2 val c0 c1).get rest := by
  rw [RTree.get, RTree.get, splitCommon_prefix]
  cases hc : splitCommonBits p2 rest with
  | mk c2 r2 =>
    cases r2 with
    | mk pr2 kr2 =>
      cases pr2 with
      | nil => cases kr2 with
        | nil => simp
        | cons kb kr => simp
      | cons pb pr => cases kr2 with
        | nil => simp
        | cons kb kr => simp

theorem RTree.get_put_self : ∀ (t : RTree) (k : List Bool) (v : Bytes),
    (t.put k v).get k = some v := by
  intro t
  induction t with
  | empty =>
    intro k v
    simp [RTree.put, RTree.get, splitCommon_self]
  | node p val c0 c1 ih0 ih1 =>
    intro k v
    rcases hs : splitCommonBits p k with ⟨c, pr, kr⟩
    obtain ⟨hp, hk⟩ := splitCommon_eq p k c pr kr hs
    cases pr with
    | nil =>
      cases kr with
      | nil => simp [RTree.put, RTree.get, hs]
      | cons kb krr =>
        cases kb <;> simp [RTree.put, RTree.get, hs, ih0, ih1]
    | cons pb prr =>
      cases kr with
      | nil =>
        simp only [List.append_nil] at hk
        simp only [RTree.put, hs]
        cases pb <;> simp [RTree.get, hk, splitCommon_self]
      | cons kb krr =>
        have hne := splitCommon_heads p k c prr krr pb kb hs
        simp only [RTree.put, hs]
        cases pb <;> cases kb
        · exact absurd rfl hne
        · simp [RTree.get, hk, splitCommon_append, splitCommon_self]
        · simp [RTree.get, hk, splitCommon_append, splitCommon_self]
        · exact absurd rfl hne

theorem RTree.get_put_other : ∀ (t : RTree) (k : List Bool) (v : Bytes)
    (k' : List Bool), k' ≠ k → (t.put k v).get k' = t.get k' := by
  intro t
  induction t with
  | empty =>
    intro k v k' hne
    rcases hs : splitCommonBits k k' with ⟨c, pr, kr⟩
    obtain ⟨hp, hk⟩ := splitCommon_eq k k' c pr kr hs
    simp only [RTree.put, RTree.get, hs]
    cases pr with
    | nil =>
      cases kr with
      | nil =>
        simp only [List.append_nil] at hp hk
        exact absurd (hk.trans hp.symm) hne
      | cons kb krr => cases kb <;> simp [RTree.get]
    | cons pb prr => cases kr <;> simp
  | node p val c0 c1 ih0 ih1 =>
    intro k v k' hne
    rcases hs : splitCommonBits p k with ⟨c, pr, kr⟩
    obtain ⟨hp, hk⟩ := splitCommon_eq p k c pr kr hs
    cases pr with
    | nil =>
      simp only [List.append_nil] at hp
      cases kr with
      | nil =>
        -- exact-key overwrite: only the stored value changes
        simp only [List.append_nil] at hk
        simp only [RTree.put, hs]
        rcases hs' : splitCommonBits p k' with ⟨c2, pr2, kr2⟩
        obtain ⟨hp2, hk2⟩ := splitCommon_eq p k' c2 pr2 kr2 hs'
        cases pr2 with
        | nil =>
          simp only [List.append_nil] at hp2
          cases kr2 with
          | nil =>
            simp only [List.append_nil] at hk2
            exact absurd (by rw [hk2, ← hp2, hp, hk]) hne
          | cons kb2 kr2' => simp [RTree.get, hs']
        | cons pb2 pr2' => simp [RTree.get, hs']
      | cons kb krr =>
        -- descend into one child: the other child and this node are untouched
        simp only [RTree.put, hs]
        rcases hs' : splitCommonBits p k' with ⟨c2, pr2, kr2⟩
        obtain ⟨hp2, hk2⟩ := splitCommon_eq p k' c2 pr2 kr2 hs'
        cases pr2 with
        | nil =>
          simp only [List.append_nil] at hp2
          cases kr2 with
          | nil => cases kb <;> simp [RTree.get, hs']
          | cons kb2 kr2' =>
            have hkr : kb2 = kb → kr2' ≠ krr := by
              intro hb hr
              apply hne
              rw [hk2, ← hp2, hp, hk, hb, hr]
            cases kb <;> cases kb2 <;>
              simp [RTree.get, hs'] <;>
              first
                | exact ih0 krr v kr2' (hkr rfl)
                | exact ih1 krr v kr2' (hkr rfl)
        | cons pb2 pr2' => cases kb <;> simp [RTree.get, hs']
    | cons pb prr =>
      cases kr with
      | nil =>
        -- the key ends inside this node's prefix: the node is split, the old
        -- subtree hangs unchanged below the new value node
        simp only [List.append_nil] at hk
        simp only [RTree.put, hs]
        rcases hs' : splitCommonBits c k' with ⟨c2, cr, kr2⟩
        obtain ⟨hc2, hk2⟩ := splitCommon_eq c k' c2 cr kr2 hs'
        cases cr with
        | cons cb crr =>
          have hext := splitCommon_extend c k' c2 crr kr2 cb hs' (pb :: prr)
          rw [hp]
          cases pb <;> simp [RTree.get, hs', hext]
        | nil =>
          simp only [List.append_nil] at hc2
          subst hc2
          cases kr2 with
          | nil =>
            simp only [List.append_nil] at hk2
            exact absurd (by rw [hk2, ← hk]) hne
          | cons kb2 kr2' =>
            rw [hp, hk2]
            cases hpbv : pb <;> cases hkb2v : kb2
            · -- routed into the preserved old subtree
              have hL : (RTree.node c (some v) (RTree.node prr val c0 c1) RTree.empty).get
                  (c ++ false :: kr2') = (RTree.node prr val c0 c1).get kr2' := by
                simp [RTree.get, splitCommon_append]
              have hR : (RTree.node (c ++ false :: prr) val c0 c1).get
                  (c ++ false :: kr2') = (RTree.node prr val c0 c1).get kr2' := by
                rw [List.append_cons c false prr, List.append_cons c false kr2']
                exact RTree.get_prefix (c ++ [false]) prr val c0 c1 kr2'
              simp only [Bool.false_eq_true, if_false, eq_self_iff_true, if_true]
              rw [hL, hR]
            · simp [RTree.get, splitCommon_append, splitCommon_prefix, splitCommonBits]
            · simp [RTree.get, splitCommon_append, splitCommon_prefix, splitCommonBits]
            · have hL : (RTree.node c (some v) RTree.empty (RTree.node prr val c0 c1)).get
                  (c ++ true :: kr2') = (RTree.node prr val c0 c1).get kr2' := by
                simp [RTree.get, splitCommon_append]
              have hR : (RTree.node (c ++ true :: prr) val c0 c1).get
                  (c ++ true :: kr2') = (RTree.node prr val c0 c1).get kr2' := by
                rw [List.append_cons c true prr, List.append_cons c true kr2']
                exact RTree.get_prefix (c ++ [true]) prr val c0 c1 kr2'
              simp only [Bool.false_eq_true, if_false, eq_self_iff_true, if_true]
              rw [hL, hR]
      | cons kb krr =>
        -- genuine divergence: the node splits into the old subtree and a new
        -- leaf for the inserted key
        have hbne := splitCommon_heads p k c prr krr pb kb hs
        simp only [RTree.put, hs]
        rcases hs' : splitCommonBits c k' with ⟨c2, cr, kr2⟩
        obtain ⟨hc2, hk2⟩ := splitCommon_eq c k' c2 cr kr2 hs'
        cases cr with
        | cons cb crr =>
          have hext := splitCommon_extend c k' c2 crr kr2 cb hs' (pb :: prr)
          rw [hp]
          cases pb <;> simp [RTree.get, hs', hext]
        | nil =>
          simp only [List.append_nil] at hc2
          subst hc2
          cases kr2 with
          | nil =>
            simp only [List.append_nil] at hk2
            rw [hp, hk2]
            have hleft := splitCommon_append_left c (pb :: prr)
            cases pb <;> simp [RTree.get, splitCommon_self, hleft]
          | cons kb2 kr2' =>
            rw [hp, hk2]
            have hkb : kb = !pb := by
              cases hkbv : kb <;> cases hpbv : pb <;> simp_all
            cases hpbv : pb <;> cases hkb2v : kb2
            · -- kb2 = pb = false: routed into the preserved old subtree
              have hL : (RTree.node c none (RTree.node prr val c0 c1)
                    (RTree.node krr (some v) RTree.empty RTree.empty)).get
                  (c ++ false :: kr2') = (RTree.node prr val c0 c1).get kr2' := by
                simp [RTree.get, splitCommon_append]
              have hR : (RTree.node (c ++ false :: prr) val c0 c1).get
                  (c ++ false :: kr2') = (RTree.node prr val c0 c1).get kr2' := by
                rw [List.append_cons c false prr, List.append_cons c false kr2']
                exact RTree.get_prefix (c ++ [false]) prr val c0 c1 kr2'
              simp only [Bool.false_eq_true, if_false, eq_self_iff_true, if_true]
              rw [hL, hR]
            · -- kb2 = kb = true: routed into the fresh leaf; both sides absent
              have hkr : kr2' ≠ krr := by
                intro hr
                apply hne
                rw [hk2, hk, hr, hkb, hpbv, hkb2v]
                simp
              have hL : (RTree.node c none (RTree.node prr val c0 c1)
                    (RTree.node krr (some v) RTree.empty RTree.empty)).get
                  (c ++ true :: kr2') =
                  (RTree.node krr (some v) RTree.empty RTree.empty).get kr2' := by
                simp [RTree.get, splitCommon_append]
              have hleaf : (RTree.node krr (some v) RTree.empty RTree.empty).get kr2'
                  = none := by
                rcases hs5 : splitCommonBits krr kr2' with ⟨c5, pr5, kr5⟩
                obtain ⟨h5a, h5b⟩ := splitCommon_eq krr kr2' c5 pr5 kr5 hs5
                cases pr5 with
                | nil =>
                  cases kr5 with
                  | nil =>
                    simp only [List.append_nil] at h5a h5b
                    exact absurd (h5b.trans h5a.symm) hkr
                  | cons b5 r5 =>
                    cases b5 <;> simp [RTree.get, hs5]
                | cons b5 r5 => simp [RTree.get, hs5]
              have hR : (RTree.node (c ++ false :: prr) val c0 c1).get
                  (c ++ true :: kr2') = none := by
                simp [RTree.get, splitCommon_prefix, splitCommonBits]
              simp only [Bool.false_eq_true, if_false, eq_self_iff_true, if_true]
              rw [hL, hleaf, hR]
            · -- kb2 = kb = false: routed into the fresh leaf; both sides absent
              have hkr : kr2' ≠ krr := by
                intro hr
                apply hne
                rw [hk2, hk, hr, hkb, hpbv, hkb2v]
                simp
              have hL : (RTree.node c none
                    (RTree.node krr (some v) RTree.empty RTree.empty)
                    (RTree.node prr val c0 c1)).get
                  (c ++ false :: kr2') =
                  (RTree.node krr (some v) RTree.empty RTree.empty).get kr2' := by
                simp [RTree.get, splitCommon_append]
              have hleaf : (RTree.node krr (some v) RTree.empty RTree.empty).get kr2'
                  = none := by
                rcases hs5 : splitCommonBits krr kr2' with ⟨c5, pr5, kr5⟩
                obtain ⟨h5a, h5b⟩ := splitCommon_eq krr kr2' c5 pr5 kr5 hs5
                cases pr5 with
                | nil =>
                  cases kr5 with
                  | nil =>
                    simp only [List.append_nil] at h5a h5b
                    exact absurd (h5b.trans h5a.symm) hkr
                  | cons b5 r5 =>
                    cases b5 <;> simp [RTree.get, hs5]
                | cons b5 r5 => simp [RTree.get, hs5]
              have hR : (RTree.node (c ++ true :: prr) val c0 c1).get
                  (c ++ false :: kr2') = none := by
                simp [RTree.get, splitCommon_prefix, splitCommonBits]
              simp only [Bool.false_eq_true, if_false, eq_self_iff_true, if_true]
              rw [hL, hleaf, hR]
            · -- kb2 = pb = true: routed into the preserved old subtree
              have hL : (RTree.node c none
                    (RTree.node krr (some v) RTree.empty RTree.empty)
                    (RTree.node prr val c0 c1)).get
                  (c ++ true :: kr2') = (RTree.node prr val c0 c1).get kr2' := by
                simp [RTree.get, splitCommon_append]
              have hR : (RTree.node (c ++ true :: prr) val c0 c1).get
                  (c ++ true :: kr2') = (RTree.node prr val c0 c1).get kr2' := by
                rw [List.append_cons c true prr, List.append_cons c true kr2']
                exact RTree.get_prefix (c ++ [true]) prr val c0 c1 kr2'
              simp only [Bool.false_eq_true, if_false, eq_self_iff_true, if_true]
              rw [hL, hR]

-- ## Genesis block construction (`consensus/genesis.py`, C8)

/-- Serialisation of a trie node, hashed to form its content id (the concrete
layout of the missing `storage/models/trie.py` node encoding is immaterial to
the claims; only that a root hash is a function of the tree). -/
def RTree.ser : RTree → Bytes
  | .empty => [0]
  | .node pre val c0 c1 =>
    [1, pre.length] ++ pre.map (fun b => if b then 1 else 0)
      ++ (match val with | none => [0] | some v => [1, v.length] ++ v)
      ++ c0.ser ++ c1.ser

/-- Content id of a (nonempty) trie: hash of its root serialisation. -/
def treeRoot (h : Bytes → Bytes) (t : RTree) : Bytes := h t.ser

/-- `Account.create(balance, data_hash, counter)` of the missing
`consensus/models/account.py`, per §3: `{balance, data_hash (opaque), nonce}`. -/
structure GAccount where
  balance : Nat
  data_hash : Bytes
  counter : Nat
deriving DecidableEq, Repr

/-- The account's content id (`atom_hash`), a hash of its serialised fields. -/
def accountAtomHash (h : Bytes → Bytes) (a : GAccount) : Bytes :=
  h (intToBeBytes (some a.balance) ++ a.data_hash ++ intToBeBytes (some a.counter))

/-- `TREASURY_ADDRESS = b"\x01" * 32` from `consensus/genesis.py`. -/
def TREASURY1 : Bytes := List.replicate 32 1

/-- The genesis stake sub-trie: the validator's key mapped to one unit
(`int_to_bytes(1)`, minimal big-endian per §6). -/
def genesisStakeTrie (vpk : Bytes) : RTree :=
  RTree.empty.put (bytesToBits vpk) (intToBeBytes (some 1))

/-- Root of the genesis stake sub-trie. -/
def genesisStakeRoot (h : Bytes → Bytes) (vpk : Bytes) : Bytes :=
  treeRoot h (genesisStakeTrie vpk)

/-- `Account.create(balance=1, data_hash=stake_root, counter=0)`. -/
def genesisTreasuryAccount (h : Bytes → Bytes) (vpk : Bytes) : GAccount :=
  ⟨1, genesisStakeRoot h vpk, 0⟩

/-- `Account.create(balance=0, data_hash=b"", counter=0)` (burn). -/
def genesisBurnAccount : GAccount := ⟨0, [], 0⟩

/-- `Account.create(balance=0, data_hash=b"", counter=0)` (validator). -/
def genesisValidatorAccount : GAccount := ⟨0, [], 0⟩

/-- The genesis accounts trie: treasury, burn and validator accounts inserted
in the order of `create_genesis_block`, each mapped to its account id. -/
def genesisAccountsTrie (h : Bytes → Bytes) (vpk : Bytes) : RTree :=
  ((RTree.empty.put (bytesToBits TREASURY1)
      (accountAtomHash h (genesisTreasuryAccount h vpk))).put
    (bytesToBits BURN0) (accountAtomHash h genesisBurnAccount)).put
    (bytesToBits vpk) (accountAtomHash h genesisValidatorAccount)

/-- The genesis block's body fields as assembled by `create_genesis_block`
step 3 (`consensus/models/block.py` itself is missing; the record holds the
keyword arguments passed to `Block(...)`). -/
structure GBlock where
  number : Nat
  previous_block_hash : Bytes
  timestamp : Nat
  accounts_hash : Bytes
  transactions_total_fees : Nat
  transactions_hash : Bytes
  receipts_hash : Bytes
  delay_difficulty : Nat
  delay_output : Bytes
  validator_public_key : Bytes
deriving DecidableEq, Repr

/-- The block record `create_genesis_block` assembles for a validator key. -/
def genesisBlockRec (h : Bytes → Bytes) (vpk : Bytes) : GBlock :=
  { number := 0
    previous_block_hash := ZERO32
    timestamp := 0
    accounts_hash := treeRoot h (genesisAccountsTrie h vpk)
    transactions_total_fees := 0
    transactions_hash := ZERO32
    receipts_hash := ZERO32
    delay_difficulty := 0
    delay_output := []
    validator_public_key := vpk }

/-- `create_genesis_block` from `consensus/genesis.py` (signing elided):
reject a key that is not 32 bytes, otherwise build the stake trie, the three
accounts, the accounts trie and the block metadata.  Modelled from the spec
where its collaborators (`Trie`, `Account`, `int_to_bytes`, the consensus
`Block`) are missing from the source tree. -/
def createGenesisBlock (h : Bytes → Bytes) (vpk : Bytes) : Except String GBlock :=
  if vpk.length ≠ 32 then .error "validator_public_key must be 32 bytes"
  else .ok (genesisBlockRec h vpk)

/-- C8: for every 32-byte validator key distinct from the treasury and burn
addresses, the genesis block has `number = 0` and
`previous_block_hash = ZERO32`; its stake sub-trie maps the validator's key to
exactly one unit; the treasury account has balance 1 and `data_hash` equal to
the stake sub-trie root; and the accounts trie holds the treasury account and
the zero-balance burn and validator accounts. -/
theorem createGenesisBlock_shape (h : Bytes → Bytes) (vpk : Bytes)
    (hlen : vpk.length = 32) (hbytes : ∀ x ∈ vpk, x < 256)
    (hvT : vpk ≠ TREASURY1) (hvB : vpk ≠ BURN0) :
    createGenesisBlock h vpk = .ok (genesisBlockRec h vpk)
      ∧ (genesisBlockRec h vpk).number = 0
      ∧ (genesisBlockRec h vpk).previous_block_hash = ZERO32
      ∧ (genesisStakeTrie vpk).get (bytesToBits vpk) = some (intToBeBytes (some 1))
      ∧ (genesisTreasuryAccount h vpk).balance = 1
      ∧ (genesisTreasuryAccount h vpk).data_hash = genesisStakeRoot h vpk
      ∧ (genesisAccountsTrie h vpk).get (bytesToBits TREASURY1) =
          some (accountAtomHash h (genesisTreasuryAccount h vpk))
      ∧ (genesisAccountsTrie h vpk).get (bytesToBits BURN0) =
          some (accountAtomHash h genesisBurnAccount)
      ∧ (genesisAccountsTrie h vpk).get (bytesToBits vpk) =
          some (accountAtomHash h genesisValidatorAccount)
      ∧ genesisBurnAccount.balance = 0
      ∧ genesisValidatorAccount.balance = 0 := by
  have hTb : ∀ x ∈ TREASURY1, x < 256 := by
    intro x hx
    rw [TREASURY1, List.mem_replicate] at hx
    omega
  have hBb : ∀ x ∈ BURN0, x < 256 := by
    intro x hx
    rw [BURN0, List.mem_replicate] at hx
    omega
  have hbT : bytesToBits TREASURY1 ≠ bytesToBits vpk := by
    intro he
    exact hvT (bytesToBits_inj vpk TREASURY1 hbytes hTb he.symm)
  have hbB : bytesToBits BURN0 ≠ bytesToBits vpk := by
    intro he
    exact hvB (bytesToBits_inj vpk BURN0 hbytes hBb he.symm)
  have hTB : bytesToBits TREASURY1 ≠ bytesToBits BURN0 := by
    intro he
    have := bytesToBits_inj TREASURY1 BURN0 hTb hBb he
    simp [TREASURY1, BURN0] at this
  refine ⟨by simp [createGenesisBlock, hlen], rfl, rfl,
    RTree.get_put_self _ _ _, rfl, rfl, ?_, ?_, RTree.get_put_self _ _ _, rfl, rfl⟩
  · rw [genesisAccountsTrie, RTree.get_put_other _ _ _ _ hbT,
      RTree.get_put_other _ _ _ _ hTB]
    exact RTree.get_put_self _ _ _
  · rw [genesisAccountsTrie, RTree.get_put_other _ _ _ _ hbB]
    exact RTree.get_put_self _ _ _

/-- Witness for `createGenesisBlock_shape` at a concrete validator key. -/
theorem createGenesisBlock_shape_witness :
    (List.replicate 32 2 : Bytes).length = 32
      ∧ createGenesisBlock hT (List.replicate 32 2) =
          .ok (genesisBlockRec hT (List.replicate 32 2))
      ∧ (genesisStakeTrie (List.replicate 32 2)).get
          (bytesToBits (List.replicate 32 2)) = some (intToBeBytes (some 1)) :=
  ⟨by decide,
    (createGenesisBlock_shape hT (List.replicate 32 2) (by decide) (by decide)
        (by decide) (by decide)).1,
    (createGenesisBlock_shape hT (List.replicate 32 2) (by decide) (by decide)
        (by decide) (by decide)).2.2.2.1⟩
